import Mathlib

/-!
Verification of the JHU covid-19 location scraper
(`src/scrapers/covid-19/jhuLocations.js`).

The JavaScript source is shallowly embedded below.  Conventions of the
embedding:

* A JavaScript value that can only be a string, `null` or `undefined` is
  modelled by `JSVal`.  Fields that the program only ever populates with a
  string or `null` (`province` and `county`: both come from `x || null`
  expressions, and the spec's data model types them `string | null`) are
  modelled by `Option String`, `none` standing for `null`.
* JavaScript numbers produced by `parseInt` are either integers or `NaN`;
  they are modelled by `JSNum` with `jsAdd` as `+` (`NaN` absorbing, exact
  integer arithmetic — the double rounding of integers beyond 2^53 is not
  modelled).
* Property lookup `statesResult[loc.province]` coerces the key to a string
  (`String(null) = "null"`), modelled by `provKey`.  The plain object is
  modelled as an insertion-ordered association list with the `Object.keys`
  enumeration order (integer-like keys first, ascending, then the other
  string keys in insertion order), modelled by `objKeys`.  The prototype
  chain of `{}` is not modelled (the object is treated as a pure
  dictionary).
* `String.prototype.toLowerCase` is modelled by `String.toLower` (ASCII
  case mapping; the Unicode special cases are outside the data handled
  here).
-/

/-- A JavaScript value that is a string, `null` or `undefined`. -/
inductive JSVal where
  | str (s : String)
  | null
  | undefined
deriving DecidableEq

/-- A JavaScript number as produced by `parseInt`: an exact integer or the
`NaN` sentinel. -/
inductive JSNum where
  | num (n : Int)
  | nan
deriving DecidableEq

/-- JavaScript `+` on `parseInt` results: `NaN` absorbs, numbers add. -/
def jsAdd : JSNum → JSNum → JSNum
  | .num a, .num b => .num (a + b)
  | _, _ => .nan

/-- The `stats` object of a record. -/
structure Stats where
  confirmed : JSNum
  deaths : JSNum
  recovered : JSNum
deriving DecidableEq

/-- The `coordinates` object of a record. -/
structure Coordinates where
  latitude : JSVal
  longitude : JSVal
deriving DecidableEq

/-- One normalized record, as built by `extractData` and stored in the
cached RecordCollection. -/
structure Record where
  country : JSVal
  province : Option String
  county : Option String
  updatedAt : JSVal
  stats : Stats
  coordinates : Coordinates
deriving DecidableEq

deriving instance DecidableEq for Except

/-- Field selector for the three `stats` fields. -/
inductive StatField where
  | confirmed
  | deaths
  | recovered
deriving DecidableEq

/-- Project one field out of a `Stats` value. -/
def getStat (s : Stats) : StatField → JSNum
  | .confirmed => s.confirmed
  | .deaths => s.deaths
  | .recovered => s.recovered

/-! ### JavaScript primitives used by the source -/

/-- JavaScript `ToString` on the values a field can hold
(`String(null) = "null"`, `String(undefined) = "undefined"`). -/
def jsToString : JSVal → String
  | .str s => s
  | .null => "null"
  | .undefined => "undefined"

/-- Whitespace skipped by `parseInt`. -/
def jsWhite (c : Char) : Bool :=
  c = ' ' || c = '\t' || c = '\n' || c = '\r' || c = '\x0b' || c = '\x0c'

/-- Numeric value of a list of decimal digits. -/
def digitsVal (cs : List Char) : Nat :=
  cs.foldl (fun a c => a * 10 + (c.toNat - 48)) 0

/-- Hexadecimal digit test. -/
def isHexDig (c : Char) : Bool :=
  c.isDigit || ('a' ≤ c && c ≤ 'f') || ('A' ≤ c && c ≤ 'F')

/-- Numeric value of one hexadecimal digit. -/
def hexDigVal (c : Char) : Nat :=
  if c.isDigit then c.toNat - 48
  else if 'a' ≤ c && c ≤ 'f' then c.toNat - 87
  else c.toNat - 55

/-- Numeric value of a list of hexadecimal digits. -/
def hexVal (cs : List Char) : Nat :=
  cs.foldl (fun a c => a * 16 + hexDigVal c) 0

/-- Core of `parseInt` after sign extraction: an optional `0x`/`0X` prefix
switches to base 16, otherwise the longest leading run of decimal digits is
taken; no digits at all gives `NaN`. -/
def parseIntCore (sgn : Int) : List Char → JSNum
  | '0' :: c :: t =>
    if c = 'x' || c = 'X' then
      let ds := t.takeWhile isHexDig
      if ds.isEmpty then .nan else .num (sgn * (hexVal ds : Nat))
    else
      .num (sgn * (digitsVal (('0' :: c :: t).takeWhile (·.isDigit)) : Nat))
  | cs =>
    let ds := cs.takeWhile (·.isDigit)
    if ds.isEmpty then .nan else .num (sgn * (digitsVal ds : Nat))

/-- JavaScript `parseInt` applied to a field value: convert to string, skip
leading whitespace, take an optional sign, then `parseIntCore`. -/
def parseIntJS (v : JSVal) : JSNum :=
  match (jsToString v).toList.dropWhile jsWhite with
  | '-' :: t => parseIntCore (-1) t
  | '+' :: t => parseIntCore 1 t
  | cs => parseIntCore 1 cs

/-- Indexing `loc[i]` on a CSV row: out-of-range access yields
`undefined`. -/
def idx (loc : List String) (i : Nat) : JSVal :=
  match loc.get? i with
  | some s => .str s
  | none => .undefined

/-- The expression `loc[i] || null`: the falsy values (the empty string,
`undefined`) become `null`; a non-empty string passes through. -/
def strOrNull : JSVal → Option String
  | .str s => if s = "" then none else some s
  | _ => none

/-- The expression `province || null` applied to an already
string-or-null value (used when `generalizedJhudataV2` rebuilds
`defaultData.province`). -/
def jsOrNull : Option String → Option String
  | some s => if s = "" then none else some s
  | none => none

/-- JavaScript property-key coercion of a `province` value, as in
`statesResult[loc.province]` (`String(null) = "null"`). -/
def provKey : Option String → String
  | some s => s
  | none => "null"

/-- ASCII lowercase mapping of one character. -/
def charToLower (c : Char) : Char :=
  if 'A' ≤ c && c ≤ 'Z' then Char.ofNat (c.toNat + 32) else c

/-- Model of `String.prototype.toLowerCase` (ASCII case mapping). -/
def jsToLower (s : String) : String :=
  String.mk (s.toList.map charToLower)

/-! ### `extractData` (lines 11–25 of the source) -/

/-- Embedding of `extractData`: positional extraction of one CSV row into a
`Record`.  The function is total: an out-of-range index yields `undefined`
(then `null` after `|| null`, `NaN` after `parseInt`), never an error. -/
def extractData (loc : List String) : Record :=
  { country := idx loc 3
    province := strOrNull (idx loc 2)
    county := strOrNull (idx loc 1)
    updatedAt := idx loc 4
    stats :=
      { confirmed := parseIntJS (idx loc 7)
        deaths := parseIntJS (idx loc 8)
        recovered := parseIntJS (idx loc 9) }
    coordinates := { latitude := idx loc 5, longitude := idx loc 6 } }

/-! ### `jhudataV2` (lines 32–55 of the source)

The ingestion routine is modelled against its collaborators: the outcome of
the fallible prefix (date computation, `axios.get`, `csvtojson`) is an
`Except` parameter, the CSV parse and `JSON.stringify` are function
parameters, and the redis store is observed through the list of `set`
writes the call performs.  The whole body is inside `try { ... } catch`,
whose handler only logs and returns, so the function itself never raises;
this is reflected by the model being a total function. -/

/-- Embedding of `jhudataV2`, observed as the list of cache writes it
performs.  On a failure of the fetch (or of any step before the `redis.set`
call) the `catch` block is taken and no write happens; on success
`parsed.splice(1)` drops the header row, every remaining row is extracted,
and a single write of the serialized collection is made under the JHU v2
key. -/
def jhudataV2 (fetchResult : Except String String)
    (parseCSV : String → List (List String))
    (stringify : List Record → String)
    (jhuV2Key : String) : List (String × String) :=
  match fetchResult with
  | .error _ => []
  | .ok body =>
    let parsed := parseCSV body
    let result := (parsed.drop 1).map extractData
    [(jhuV2Key, stringify result)]

/-- One cache `set`. -/
def applySet (cache : String → Option String) (k v : String) :
    String → Option String :=
  fun q => if q = k then some v else cache q

/-- Replay a list of cache writes over a cache state. -/
def applyWrites (cache : String → Option String)
    (ws : List (String × String)) : String → Option String :=
  ws.foldl (fun c kv => applySet c kv.1 kv.2) cache

/-! ### `generalizedJhudataV2` (lines 62–83 of the source) -/

/-- The `defaultData` object built at the top of the `forEach` body:
a shallow copy of `loc` with `province` renormalized by `|| null`.
(The copy shares `loc`'s `stats` object; see `generalizeMutated`.) -/
def defaultDataOf (loc : Record) : Record :=
  { loc with province := jsOrNull loc.province }

/-- Field-wise `+=` of one `stats` object into another. -/
def addStats (a b : Stats) : Stats :=
  { confirmed := jsAdd a.confirmed b.confirmed
    deaths := jsAdd a.deaths b.deaths
    recovered := jsAdd a.recovered b.recovered }

/-- Fold a list of `stats` objects into an accumulator with `addStats`. -/
def addStatsList (s : Stats) (l : List Stats) : Stats :=
  l.foldl addStats s

/-- First-match lookup in the insertion-ordered model of the
`statesResult` object. -/
def alookup : List (String × Record) → String → Option Record
  | [], _ => none
  | (k, v) :: t, key => if k = key then some v else alookup t key

/-- The three `+=` statements on `statesResult[loc.province].stats`: update
the (first, and in fact only) entry under `key` by adding `s` into its
stats. -/
def bumpStats : List (String × Record) → String → Stats → List (String × Record)
  | [], _, _ => []
  | (k, v) :: t, key, s =>
    if k = key then (k, { v with stats := addStats v.stats s }) :: t
    else (k, v) :: bumpStats t key s

/-- The own property names of `Object.prototype` (ECMA-262, including the
Annex B accessors), which a plain object literal `{}` inherits.  For these
keys `statesResult[key]` is truthy even before any assignment, because the
lookup falls through to the inherited function (or, for `__proto__`, to the
prototype object itself). -/
def objectPrototypeKeys : List String :=
  ["constructor", "hasOwnProperty", "isPrototypeOf", "propertyIsEnumerable",
   "toLocaleString", "toString", "valueOf", "__proto__", "__defineGetter__",
   "__defineSetter__", "__lookupGetter__", "__lookupSetter__"]

/-- A county-level record whose province coerces to an inherited
`Object.prototype` property name.  On the first such record the source's
truthiness test `if (statesResult[loc.province])` finds the inherited
property and takes the `+=` branch, where `statesResult[...].stats` is
`undefined` and reading `.confirmed` throws a `TypeError`. -/
def protoCounty (r : Record) : Bool :=
  r.county.isSome && objectPrototypeKeys.contains (provKey r.province)

/-- One iteration of the `forEach` body of `generalizedJhudataV2`, acting on
the pair (`result`, `statesResult`).  The truthiness test
`if (statesResult[loc.province])` consults the own keys first (an own entry
is a record object, hence truthy, and shadows the prototype); with no own
entry, an inherited `Object.prototype` property is still truthy and the
`+=` statement then throws a `TypeError` (modelled by `.error`); otherwise
the lookup is `undefined` (falsy) and the accumulator is seeded. -/
def genStep (acc : List Record × List (String × Record)) (loc : Record) :
    Except String (List Record × List (String × Record)) :=
  let dd := defaultDataOf loc
  if loc.county.isSome then
    match alookup acc.2 (provKey loc.province) with
    | some _ => .ok (acc.1, bumpStats acc.2 (provKey loc.province) loc.stats)
    | none =>
      if objectPrototypeKeys.contains (provKey loc.province) then .error "TypeError"
      else .ok (acc.1, acc.2 ++ [(provKey loc.province, dd)])
  else .ok (acc.1 ++ [dd], acc.2)

/-- Run the `forEach` pass from a given state; a thrown `TypeError`
aborts the remaining iterations. -/
def genFold (acc : List Record × List (String × Record)) :
    List Record → Except String (List Record × List (String × Record))
  | [] => .ok acc
  | r :: rs =>
    match genStep acc r with
    | .error e => .error e
    | .ok acc2 => genFold acc2 rs

/-- The state after the single `forEach` pass (or the thrown error). -/
def generalizePass (data : List Record) :
    Except String (List Record × List (String × Record)) :=
  genFold ([], []) data

/-- Canonical-array-index test for a property key: the keys that
`Object.keys` enumerates first, in ascending numeric order (a non-empty
all-digit string with no leading zero whose value is below 2^32 − 1). -/
def isArrayIndexStr (s : String) : Bool :=
  let cs := s.toList
  !cs.isEmpty && cs.all (·.isDigit) && (cs = ['0'] || cs.headD '0' ≠ '0')
    && digitsVal cs < 4294967295

/-- Insertion step of the numeric sort of array-index keys. -/
def insertByVal (x : String) : List String → List String
  | [] => [x]
  | y :: t =>
    if digitsVal x.toList ≤ digitsVal y.toList then x :: y :: t
    else y :: insertByVal x t

/-- Ascending numeric sort of array-index keys. -/
def sortIdxKeys (l : List String) : List String :=
  l.foldr insertByVal []

/-- Enumeration order of `Object.keys` over the model object: array-index
keys first in ascending numeric order, then the remaining string keys in
insertion order. -/
def objKeys (ks : List String) : List String :=
  sortIdxKeys (ks.filter isArrayIndexStr) ++ ks.filter (fun k => !isArrayIndexStr k)

/-- Embedding of `generalizedJhudataV2`: the pushed non-county records
followed by `Object.keys(statesResult).map((state) => result.push(...))`,
or the `TypeError` the pass throws on a county record whose province names
an inherited `Object.prototype` property (the function has no
try/catch). -/
def generalizedJhudataV2 (data : List Record) : Except String (List Record) :=
  match generalizePass data with
  | .error e => .error e
  | .ok p => .ok (p.1 ++ (objKeys (p.2.map Prod.fst)).filterMap (alookup p.2))

/-- The county-level records of `data` whose province coerces to the
property key `key` — exactly the records accumulated into
`statesResult[key]`. -/
def countyContribs (data : List Record) (key : String) : List Record :=
  data.filter (fun r => r.county.isSome && provKey r.province == key)

/-- The input RecordCollection as it stands after a call of
`generalizedJhudataV2` (whether the call returns or throws).  `defaultData`
is a shallow copy of `loc`, so the record seeded into `statesResult` shares
its `stats` object with the input record it came from; the later `+=`
statements write through into that first record's `stats`.  A thrown
`TypeError` (first county record with an inherited-property province key,
which is never an own key since seeding it is unreachable) stops the
iteration before that record performs any write, so records from the crash
on keep their original values, and the first county record of each seeded
key accumulates only the matching records processed before the crash
(hence the `takeWhile` in `mutContribs`). -/
def mutContribs (rs : List Record) (k : String) : List Stats :=
  (countyContribs (rs.takeWhile (fun x => !protoCounty x)) k).map (·.stats)

/-- The walk computing the post-call values of the input records, see the
comment above `mutContribs`. -/
def mutGo : List String → List Record → List Record
  | _, [] => []
  | done, r :: rs =>
    if r.county.isSome then
      if provKey r.province ∈ done then r :: mutGo done rs
      else if objectPrototypeKeys.contains (provKey r.province) then r :: rs
      else
        { r with stats := addStatsList r.stats (mutContribs rs (provKey r.province)) }
          :: mutGo (provKey r.province :: done) rs
    else r :: mutGo done rs

/-- The input collection after one call of `generalizedJhudataV2`. -/
def generalizeMutated (data : List Record) : List Record :=
  mutGo [] data

/-! ### `getCountyJhuDataV2` (lines 91–93 of the source) -/

/-- Embedding of `getCountyJhuDataV2`.  The JavaScript parameter default
`county = null` is `none` here; `county ?` is truthiness, so both `null`
and the empty string select the unfiltered county branch.  In the truthy
branch only the record's county is lowercased, the argument is compared
as given. -/
def getCountyJhuDataV2 (data : List Record) (county : Option String) :
    List Record :=
  match county with
  | some c =>
    if c = "" then data.filter (fun loc => loc.county.isSome)
    else
      data.filter (fun loc =>
        loc.county.isSome && (loc.county.map jsToLower == some c))
  | none => data.filter (fun loc => loc.county.isSome)

/-! ### Derived definitions used to state and prove the claims -/

/-- The non-county records of `data`, normalized as `generalizedJhudataV2`
pushes them (the pass-through part of the output). -/
def passOf (data : List Record) : List Record :=
  (data.filter (fun r => !r.county.isSome)).map defaultDataOf

/-- The per-iteration action of the `forEach` body in an execution that
meets no county record with an inherited `Object.prototype` province key:
for such inputs `genStep` always returns `.ok` and agrees with this pure
step (`genFold_clean` below), which the characterization lemmas are stated
over. -/
def genStepOk (acc : List Record × List (String × Record)) (loc : Record) :
    List Record × List (String × Record) :=
  let dd := defaultDataOf loc
  if loc.county.isSome then
    match alookup acc.2 (provKey loc.province) with
    | some _ => (acc.1, bumpStats acc.2 (provKey loc.province) loc.stats)
    | none => (acc.1, acc.2 ++ [(provKey loc.province, dd)])
  else (acc.1 ++ [dd], acc.2)

/-- The action of one such `forEach` iteration on `statesResult` alone. -/
def sStep (sts : List (String × Record)) (loc : Record) :
    List (String × Record) :=
  if loc.county.isSome then
    let key := provKey loc.province
    match alookup sts key with
    | some _ => bumpStats sts key loc.stats
    | none => sts ++ [(key, defaultDataOf loc)]
  else sts

/-- Combining an accumulator state under one key with a list of county
contributions: an existing accumulator absorbs all their stats, an absent
one is seeded from the first contribution's `defaultData`. -/
def combine : Option Record → List Record → Option Record
  | some e, cs => some { e with stats := addStatsList e.stats (cs.map (·.stats)) }
  | none, [] => none
  | none, c :: cs =>
    some { defaultDataOf c with stats := addStatsList c.stats (cs.map (·.stats)) }

/-- The province keys of `data`'s county records in first-seen order,
skipping the keys in `seen`. -/
def newKeys : List String → List Record → List String
  | _, [] => []
  | seen, r :: rs =>
    if r.county.isSome then
      if provKey r.province ∈ seen then newKeys seen rs
      else provKey r.province :: newKeys (provKey r.province :: seen) rs
    else newKeys seen rs

/-- The `statesResult` object at the end of a completed (non-throwing)
pass; `generalizePass data = .ok (passOf data, statesOf data)` whenever no
county record has an inherited-property province key
(`generalizePass_clean` below). -/
def statesOf (data : List Record) : List (String × Record) :=
  data.foldl sStep []

/-- The county-level records of `data` whose `province` field equals `P`
(the input side of the aggregation-sum claim). -/
def countyRecordsFor (data : List Record) (P : Option String) : List Record :=
  data.filter (fun r => r.county.isSome && r.province == P)

/-- Fold a list of stat values with JavaScript addition. -/
def statFold (init : JSNum) (l : List JSNum) : JSNum :=
  l.foldl jsAdd init

/-- Sum of one stats field over a list of records (JavaScript addition
starting from 0). -/
def sumStat (f : StatField) (l : List Record) : JSNum :=
  statFold (.num 0) (l.map (fun r => getStat r.stats f))

/-- The records of the generalized output that were derived from
county-level input records with province `P`: the accumulator entry stored
under `P`'s property key, provided at least one county record with
province `P` exists (otherwise no output record derives from such input).
This is the output side of the aggregation-sum claim as the spec states
it. -/
def derivedCountyFor (data : List Record) (P : Option String) : List Record :=
  if (countyRecordsFor data P).isEmpty then []
  else ((statesOf data).filter (fun kv => kv.1 == provKey P)).map Prod.snd

/-- The aggregated record the pass builds for province key `K`
(`none` when no county record has that key). -/
def aggEntry (data : List Record) (K : String) : Option Record :=
  combine none (countyContribs data K)

/-- The first county-level record of `data` whose province is `P`. -/
def firstCountyFor (data : List Record) (P : Option String) : Option Record :=
  data.find? (fun r => r.county.isSome && r.province == P)

/-- The province keys of the county records of `data`, in input order, with
multiplicity. -/
def countyKeysList (data : List Record) : List String :=
  (data.filter (·.county.isSome)).map (fun r => provKey r.province)

/-! ### Concrete test data used by the counterexamples and witnesses -/

/-- Coordinates value shared by the concrete test records. -/
def coord0 : Coordinates :=
  { latitude := .str "1.0", longitude := .str "2.0" }

/-- Build a concrete test record. -/
def mkRec (country : String) (province county : Option String)
    (c d r : JSNum) : Record :=
  { country := .str country
    province := province
    county := county
    updatedAt := .str "t0"
    stats := { confirmed := c, deaths := d, recovered := r }
    coordinates := coord0 }

/-- Two county records whose provinces are `null` and the string `"null"`:
both coerce to the property key `"null"` and feed one accumulator. -/
def dColl1 : List Record :=
  [mkRec "US" none (some "a") (.num 1) (.num 0) (.num 0),
   mkRec "US" (some "null") (some "b") (.num 2) (.num 0) (.num 0)]

/-- Two county records whose provinces are `null` and the empty string:
they feed two different accumulators (keys `"null"` and `""`) whose output
records both carry the normalized province `null`. -/
def dCollNullEmpty : List Record :=
  [mkRec "XZ" none (some "z") (.num 1) (.num 0) (.num 0),
   mkRec "XB" (some "") (some "b") (.num 2) (.num 0) (.num 0)]

/-- Two county records with provinces `"b"` then `"5"`; `"5"` is an
array-index property key, which `Object.keys` enumerates first. -/
def dCollOrder : List Record :=
  [mkRec "US" (some "b") (some "x") (.num 1) (.num 0) (.num 0),
   mkRec "US" (some "5") (some "y") (.num 2) (.num 0) (.num 0)]

/-- Two county records sharing the province `"P"`, the situation in which
the accumulator aliasing mutates the first input record. -/
def dCollShared : List Record :=
  [mkRec "US" (some "P") (some "a") (.num 1) (.num 0) (.num 0),
   mkRec "US" (some "P") (some "b") (.num 2) (.num 0) (.num 0)]

/-- Two county records for `"CA"` plus one non-county record. -/
def dCollCA : List Record :=
  [mkRec "US" (some "CA") (some "a") (.num 3) (.num 1) (.num 0),
   mkRec "US" (some "CA") (some "b") (.num 5) (.num 2) (.num 4),
   mkRec "Italy" none none (.num 7) (.num 0) (.num 0)]

/-- A county record with `NaN` stats next to a numeric one, both for
province `"CA"`. -/
def dCollNaN : List Record :=
  [mkRec "US" (some "CA") (some "a") .nan .nan .nan,
   mkRec "US" (some "CA") (some "b") (.num 5) (.num 2) (.num 4)]

/-- A single county record whose province names an inherited
`Object.prototype` property and whose stats are all `NaN`. -/
def dCollProto : List Record :=
  [mkRec "US" (some "constructor") (some "a") .nan .nan .nan]

/-- A county record whose county name carries an uppercase letter. -/
def recOrange : Record :=
  mkRec "US" (some "CA") (some "Orange") (.num 1) (.num 0) (.num 0)

/-- A county record with an all-lowercase county name. -/
def recA : Record :=
  mkRec "US" (some "CA") (some "a") (.num 1) (.num 0) (.num 0)

/-- The concrete row of the spec's extraction test. -/
def rowSpec : List String :=
  ["", "", "ProvinceX", "CountryY", "t0", "1.0", "2.0", "10", "2", "1"]

/-! ### Basic lemmas about the association-list model -/

theorem genStepOk_noncounty (acc : List Record × List (String × Record))
    (loc : Record) (h : loc.county.isSome = false) :
    genStepOk acc loc = (acc.1 ++ [defaultDataOf loc], acc.2) := by
  simp [genStepOk, h]

theorem genStepOk_county_found (acc : List Record × List (String × Record))
    (loc : Record) (e : Record) (h : loc.county.isSome = true)
    (h2 : alookup acc.2 (provKey loc.province) = some e) :
    genStepOk acc loc = (acc.1, bumpStats acc.2 (provKey loc.province) loc.stats) := by
  simp [genStepOk, h, h2]

theorem genStepOk_county_new (acc : List Record × List (String × Record))
    (loc : Record) (h : loc.county.isSome = true)
    (h2 : alookup acc.2 (provKey loc.province) = none) :
    genStepOk acc loc = (acc.1, acc.2 ++ [(provKey loc.province, defaultDataOf loc)]) := by
  simp [genStepOk, h, h2]

theorem sStep_noncounty (sts : List (String × Record)) (loc : Record)
    (h : loc.county.isSome = false) : sStep sts loc = sts := by
  simp [sStep, h]

theorem sStep_county_found (sts : List (String × Record)) (loc : Record)
    (e : Record) (h : loc.county.isSome = true)
    (h2 : alookup sts (provKey loc.province) = some e) :
    sStep sts loc = bumpStats sts (provKey loc.province) loc.stats := by
  simp [sStep, h, h2]

theorem sStep_county_new (sts : List (String × Record)) (loc : Record)
    (h : loc.county.isSome = true)
    (h2 : alookup sts (provKey loc.province) = none) :
    sStep sts loc = sts ++ [(provKey loc.province, defaultDataOf loc)] := by
  simp [sStep, h, h2]

theorem alookup_append_single_of_none (sts : List (String × Record))
    (K : String) (v : Record) (q : String) (h : alookup sts q = none) :
    alookup (sts ++ [(K, v)]) q = if K = q then some v else none := by
  induction sts with
  | nil => simp [alookup]
  | cons hd t ih =>
    obtain ⟨k, w⟩ := hd
    by_cases hk : k = q
    · simp [alookup, hk] at h
    · simp only [alookup, List.cons_append, if_neg hk] at h ⊢
      exact ih h

theorem alookup_append_single_of_some (sts : List (String × Record))
    (K : String) (v : Record) (q : String) (e : Record)
    (h : alookup sts q = some e) : alookup (sts ++ [(K, v)]) q = some e := by
  induction sts with
  | nil => simp [alookup] at h
  | cons hd t ih =>
    obtain ⟨k, w⟩ := hd
    by_cases hk : k = q
    · simp only [alookup, if_pos hk] at h ⊢
      exact h
    · simp only [alookup, List.cons_append, if_neg hk] at h ⊢
      exact ih h

theorem alookup_bumpStats_self (sts : List (String × Record)) (K : String)
    (s : Stats) :
    alookup (bumpStats sts K s) K =
      (alookup sts K).map (fun e => { e with stats := addStats e.stats s }) := by
  induction sts with
  | nil => simp [alookup, bumpStats]
  | cons hd t ih =>
    obtain ⟨k, w⟩ := hd
    by_cases hk : k = K
    · simp [alookup, bumpStats, hk]
    · simp [alookup, bumpStats, hk, ih]

theorem alookup_bumpStats_ne (sts : List (String × Record)) (K : String)
    (s : Stats) (q : String) (h : K ≠ q) :
    alookup (bumpStats sts K s) q = alookup sts q := by
  induction sts with
  | nil => simp [bumpStats]
  | cons hd t ih =>
    obtain ⟨k, w⟩ := hd
    by_cases hk : k = K
    · subst hk
      simp [alookup, bumpStats, h, ih]
    · by_cases hq : k = q
      · subst hq
        simp [alookup, bumpStats, hk]
      · simp [alookup, bumpStats, hk, hq, ih]

theorem keys_bumpStats (sts : List (String × Record)) (K : String) (s : Stats) :
    (bumpStats sts K s).map Prod.fst = sts.map Prod.fst := by
  induction sts with
  | nil => simp [bumpStats]
  | cons hd t ih =>
    obtain ⟨k, w⟩ := hd
    by_cases hk : k = K
    · simp [bumpStats, hk]
    · simp [bumpStats, hk, ih]

theorem alookup_eq_none_iff (sts : List (String × Record)) (q : String) :
    alookup sts q = none ↔ q ∉ sts.map Prod.fst := by
  induction sts with
  | nil => simp [alookup]
  | cons hd t ih =>
    obtain ⟨k, w⟩ := hd
    by_cases hk : k = q
    · simp [alookup, hk]
    · simp [alookup, hk, ih, Ne.symm hk]

theorem countyContribs_cons (r : Record) (rs : List Record) (K : String) :
    countyContribs (r :: rs) K =
      if r.county.isSome && provKey r.province == K then r :: countyContribs rs K
      else countyContribs rs K := by
  simp [countyContribs, List.filter_cons]

/-! ### Characterization of the single `forEach` pass -/

theorem foldl_genStepOk_fst (data : List Record) :
    ∀ res sts, (data.foldl genStepOk (res, sts)).1 = res ++ passOf data := by
  induction data with
  | nil => intro res sts; simp [passOf]
  | cons r rs ih =>
    intro res sts
    rw [List.foldl_cons]
    cases hc : r.county.isSome
    case false =>
      have hn : r.county = none := by
        cases h2 : r.county
        · rfl
        · rw [h2] at hc; simp at hc
      rw [genStepOk_noncounty _ _ hc, ih]
      simp [passOf, List.filter_cons, hn]
    case true =>
      have hn : r.county ≠ none := by
        intro h2; rw [h2] at hc; simp at hc
      have hpass : passOf (r :: rs) = passOf rs := by
        simp [passOf, List.filter_cons, hn]
      cases hl : alookup sts (provKey r.province) with
      | some e => rw [genStepOk_county_found _ _ e hc hl, ih, hpass]
      | none => rw [genStepOk_county_new _ _ hc hl, ih, hpass]

theorem foldl_genStepOk_snd (data : List Record) :
    ∀ res sts, (data.foldl genStepOk (res, sts)).2 = data.foldl sStep sts := by
  induction data with
  | nil => intro res sts; rfl
  | cons r rs ih =>
    intro res sts
    rw [List.foldl_cons, List.foldl_cons]
    cases hc : r.county.isSome
    case false => rw [genStepOk_noncounty _ _ hc, sStep_noncounty _ _ hc, ih]
    case true =>
      cases hl : alookup sts (provKey r.province) with
      | some e =>
        rw [genStepOk_county_found _ _ e hc hl, sStep_county_found _ _ e hc hl, ih]
      | none =>
        rw [genStepOk_county_new _ _ hc hl, sStep_county_new _ _ hc hl, ih]

theorem foldl_sStep_alookup (data : List Record) :
    ∀ sts K, alookup (data.foldl sStep sts) K =
      combine (alookup sts K) (countyContribs data K) := by
  induction data with
  | nil =>
    intro sts K
    cases h : alookup sts K <;> simp [combine, countyContribs, addStatsList, h]
  | cons r rs ih =>
    intro sts K
    rw [List.foldl_cons]
    cases hc : r.county.isSome
    case false =>
      rw [sStep_noncounty _ _ hc, ih, countyContribs_cons]
      simp [hc]
    case true =>
      cases hl : alookup sts (provKey r.province) with
      | some e =>
        rw [sStep_county_found _ _ e hc hl, ih, countyContribs_cons]
        by_cases hK : provKey r.province = K
        · subst hK
          rw [alookup_bumpStats_self, hl]
          simp [hc, combine, addStatsList]
        · rw [alookup_bumpStats_ne _ _ _ _ hK]
          simp [hc, hK]
      | none =>
        rw [sStep_county_new _ _ hc hl, ih, countyContribs_cons]
        by_cases hK : provKey r.province = K
        · subst hK
          rw [alookup_append_single_of_none _ _ _ _ hl, hl]
          simp [hc, combine, addStatsList, defaultDataOf]
        · cases hq : alookup sts K with
          | some e2 =>
            rw [alookup_append_single_of_some _ _ _ _ _ hq]
            simp [hc, hK, hq]
          | none =>
            rw [alookup_append_single_of_none _ _ _ _ hq]
            simp [hc, hK, hq]

theorem newKeys_congr (data : List Record) :
    ∀ s₁ s₂ : List String, (∀ x, x ∈ s₁ ↔ x ∈ s₂) →
      newKeys s₁ data = newKeys s₂ data := by
  induction data with
  | nil => intro s₁ s₂ _; rfl
  | cons r rs ih =>
    intro s₁ s₂ hmem
    cases hc : r.county.isSome
    case false => simp [newKeys, hc, ih s₁ s₂ hmem]
    case true =>
      by_cases hk : provKey r.province ∈ s₁
      · have hk2 : provKey r.province ∈ s₂ := (hmem _).mp hk
        simp [newKeys, hc, hk, hk2, ih s₁ s₂ hmem]
      · have hk2 : provKey r.province ∉ s₂ := fun h => hk ((hmem _).mpr h)
        have hmem2 : ∀ x, x ∈ provKey r.province :: s₁ ↔ x ∈ provKey r.province :: s₂ := by
          intro x
          simp [hmem x]
        simp [newKeys, hc, hk, hk2, ih _ _ hmem2]

theorem foldl_sStep_keys (data : List Record) :
    ∀ sts : List (String × Record),
      (data.foldl sStep sts).map Prod.fst =
        sts.map Prod.fst ++ newKeys (sts.map Prod.fst) data := by
  induction data with
  | nil => intro sts; simp [newKeys]
  | cons r rs ih =>
    intro sts
    rw [List.foldl_cons]
    cases hc : r.county.isSome
    case false => rw [sStep_noncounty _ _ hc, ih]; simp [newKeys, hc]
    case true =>
      cases hl : alookup sts (provKey r.province) with
      | some e =>
        rw [sStep_county_found _ _ e hc hl, ih, keys_bumpStats]
        have hk : provKey r.province ∈ sts.map Prod.fst := by
          by_contra hk
          rw [(alookup_eq_none_iff sts (provKey r.province)).mpr hk] at hl
          exact Option.noConfusion hl
        simp [newKeys, hc, hk]
      | none =>
        rw [sStep_county_new _ _ hc hl, ih]
        have hk : provKey r.province ∉ sts.map Prod.fst :=
          (alookup_eq_none_iff sts (provKey r.province)).mp hl
        have hmem : ∀ x, x ∈ (sts.map Prod.fst) ++ [provKey r.province] ↔
            x ∈ provKey r.province :: sts.map Prod.fst := by
          intro x; simp [or_comm]
        simp only [List.map_append, List.map_cons, List.map_nil, newKeys, hc,
          if_pos rfl, hk, if_neg hk, newKeys_congr rs _ _ hmem]
        simp [newKeys, hc, hk]

theorem mem_newKeys (data : List Record) :
    ∀ seen K, K ∈ newKeys seen data ↔
      (K ∉ seen ∧ ∃ r ∈ data, r.county.isSome ∧ provKey r.province = K) := by
  induction data with
  | nil => intro seen K; simp [newKeys]
  | cons r rs ih =>
    intro seen K
    cases hc : r.county.isSome
    case false =>
      rw [newKeys]
      simp only [hc]
      rw [if_neg (by simp)]
      rw [ih]
      constructor
      · rintro ⟨h1, rr, hrr, h2, h3⟩
        exact ⟨h1, rr, List.mem_cons_of_mem _ hrr, h2, h3⟩
      · rintro ⟨h1, rr, hrr, h2, h3⟩
        rcases List.mem_cons.mp hrr with heq | hmem
        · subst heq; rw [hc] at h2; exact absurd h2 (by simp)
        · exact ⟨h1, rr, hmem, h2, h3⟩
    case true =>
      by_cases hk : provKey r.province ∈ seen
      · rw [newKeys]
        simp only [hc, if_true, if_pos hk]
        rw [ih]
        constructor
        · rintro ⟨h1, rr, hrr, h2, h3⟩
          exact ⟨h1, rr, List.mem_cons_of_mem _ hrr, h2, h3⟩
        · rintro ⟨h1, rr, hrr, h2, h3⟩
          rcases List.mem_cons.mp hrr with heq | hmem
          · subst heq
            rw [h3] at hk
            exact absurd hk h1
          · exact ⟨h1, rr, hmem, h2, h3⟩
      · rw [newKeys]
        simp only [hc, if_true, if_neg hk]
        rw [List.mem_cons, ih]
        constructor
        · rintro (heq | ⟨h1, rr, hrr, h2, h3⟩)
          · subst heq
            exact ⟨hk, r, List.mem_cons_self _ _, hc, rfl⟩
          · constructor
            · intro hKseen
              exact h1 (List.mem_cons_of_mem _ hKseen)
            · exact ⟨rr, List.mem_cons_of_mem _ hrr, h2, h3⟩
        · rintro ⟨h1, rr, hrr, h2, h3⟩
          rcases List.mem_cons.mp hrr with heq | hmem
          · subst heq
            exact Or.inl h3.symm
          · by_cases hKr : K = provKey r.province
            · exact Or.inl hKr
            · refine Or.inr ⟨?_, rr, hmem, h2, h3⟩
              intro hKin
              rcases List.mem_cons.mp hKin with h | h
              · exact hKr h
              · exact h1 h

theorem newKeys_nodup (data : List Record) :
    ∀ seen, (newKeys seen data).Nodup := by
  induction data with
  | nil => intro seen; simp [newKeys]
  | cons r rs ih =>
    intro seen
    cases hc : r.county.isSome
    case false =>
      rw [newKeys]
      simp only [hc]
      rw [if_neg (by simp)]
      exact ih seen
    case true =>
      by_cases hk : provKey r.province ∈ seen
      · rw [newKeys]
        simp only [hc, if_true, if_pos hk]
        exact ih seen
      · rw [newKeys]
        simp only [hc, if_true, if_neg hk]
        refine List.Nodup.cons ?_ (ih _)
        intro hmem
        exact ((mem_newKeys rs _ _).mp hmem).1 (List.mem_cons_self _ _)

/-! ### Arithmetic lemmas for the stats sums -/

theorem jsAdd_zero_left (x : JSNum) : jsAdd (.num 0) x = x := by
  cases x <;> simp [jsAdd]

theorem jsAdd_nan_left (x : JSNum) : jsAdd .nan x = .nan := by
  cases x <;> rfl

theorem jsAdd_nan_right (x : JSNum) : jsAdd x .nan = .nan := by
  cases x <;> rfl

theorem getStat_addStats (a b : Stats) (f : StatField) :
    getStat (addStats a b) f = jsAdd (getStat a f) (getStat b f) := by
  cases f <;> rfl

theorem getStat_addStatsList (l : List Stats) :
    ∀ (s : Stats) (f : StatField),
      getStat (addStatsList s l) f = statFold (getStat s f) (l.map (getStat · f)) := by
  induction l with
  | nil => intro s f; rfl
  | cons x xs ih =>
    intro s f
    show getStat (addStatsList (addStats s x) xs) f =
      statFold (jsAdd (getStat s f) (getStat x f)) (xs.map (getStat · f))
    rw [ih, getStat_addStats]

theorem statFold_nan (l : List JSNum) : statFold .nan l = .nan := by
  induction l with
  | nil => rfl
  | cons x xs ih =>
    show statFold (jsAdd .nan x) xs = .nan
    rw [jsAdd_nan_left]
    exact ih

theorem statFold_of_mem_nan (l : List JSNum) :
    ∀ init, .nan ∈ l → statFold init l = .nan := by
  induction l with
  | nil => intro init h; exact absurd h (List.not_mem_nil _)
  | cons x xs ih =>
    intro init h
    rcases List.mem_cons.mp h with heq | hmem
    · subst heq
      show statFold (jsAdd init .nan) xs = .nan
      rw [jsAdd_nan_right]
      exact statFold_nan xs
    · exact ih _ hmem

theorem sumStat_cons (f : StatField) (r : Record) (l : List Record) :
    sumStat f (r :: l) = statFold (getStat r.stats f) (l.map (fun x => getStat x.stats f)) := by
  show statFold (jsAdd (.num 0) (getStat r.stats f)) (l.map (fun x => getStat x.stats f)) = _
  rw [jsAdd_zero_left]

/-! ### Lemmas about the `Object.keys` enumeration order -/

theorem mem_insertByVal (x : String) (l : List String) (y : String) :
    y ∈ insertByVal x l ↔ y = x ∨ y ∈ l := by
  induction l with
  | nil => simp [insertByVal]
  | cons z t ih =>
    simp only [insertByVal]
    split
    · simp
    · simp only [List.mem_cons, ih]
      tauto

theorem mem_sortIdxKeys (l : List String) (y : String) :
    y ∈ sortIdxKeys l ↔ y ∈ l := by
  induction l with
  | nil => simp [sortIdxKeys]
  | cons x t ih =>
    show y ∈ insertByVal x (sortIdxKeys t) ↔ _
    rw [mem_insertByVal]
    simp [ih]

theorem mem_objKeys (ks : List String) (y : String) :
    y ∈ objKeys ks ↔ y ∈ ks := by
  simp only [objKeys, List.mem_append, mem_sortIdxKeys, List.mem_filter]
  by_cases h : isArrayIndexStr y <;> simp [h]

theorem objKeys_of_no_index (ks : List String)
    (h : ∀ k ∈ ks, isArrayIndexStr k = false) : objKeys ks = ks := by
  have h1 : ks.filter isArrayIndexStr = [] := by
    rw [List.filter_eq_nil_iff]
    intro a ha
    simp [h a ha]
  have h2 : ks.filter (fun k => !isArrayIndexStr k) = ks := by
    rw [List.filter_eq_self]
    intro a ha
    simp [h a ha]
  rw [objKeys, h1, h2]
  rfl

/-! ### Corollaries at the level of `generalizedJhudataV2` -/

theorem statesOf_alookup (data : List Record) (K : String) :
    alookup (statesOf data) K = aggEntry data K := by
  show alookup (data.foldl sStep []) K = _
  rw [foldl_sStep_alookup]
  rfl

theorem statesOf_keys (data : List Record) :
    (statesOf data).map Prod.fst = newKeys [] data := by
  show (data.foldl sStep []).map Prod.fst = _
  rw [foldl_sStep_keys]
  rfl

theorem genFold_clean (data : List Record) :
    ∀ acc, (∀ r ∈ data, protoCounty r = false) →
      genFold acc data = .ok (data.foldl genStepOk acc) := by
  induction data with
  | nil => intro acc _; rfl
  | cons r rs ih =>
    intro acc h
    have hr := h r (List.mem_cons_self _ _)
    have hrs : ∀ x ∈ rs, protoCounty x = false :=
      fun x hx => h x (List.mem_cons_of_mem _ hx)
    have hstep : genStep acc r = .ok (genStepOk acc r) := by
      cases hc : r.county.isSome
      case false => simp [genStep, genStepOk, hc]
      case true =>
        cases hl : alookup acc.2 (provKey r.province) with
        | some e => simp [genStep, genStepOk, hc, hl]
        | none =>
          have hcont : objectPrototypeKeys.contains (provKey r.province) = false := by
            rw [protoCounty, hc] at hr
            simpa using hr
          have hnm : provKey r.province ∉ objectPrototypeKeys := by
            simpa using hcont
          simp [genStep, genStepOk, hc, hl, hcont, hnm]
    have hunfold : genFold acc (r :: rs) = genFold (genStepOk acc r) rs := by
      show (match genStep acc r with
        | Except.error e => Except.error e
        | Except.ok acc2 => genFold acc2 rs) = genFold (genStepOk acc r) rs
      rw [hstep]
    rw [hunfold, ih _ hrs, List.foldl_cons]

theorem generalizePass_clean (data : List Record)
    (h : ∀ r ∈ data, protoCounty r = false) :
    generalizePass data = .ok (passOf data, statesOf data) := by
  rw [generalizePass, genFold_clean data ([], []) h]
  have h1 : (data.foldl genStepOk ([], [])).1 = passOf data := by
    rw [foldl_genStepOk_fst]
    rfl
  have h2 : (data.foldl genStepOk ([], [])).2 = statesOf data := by
    rw [foldl_genStepOk_snd]
    rfl
  rw [← h1, ← h2]

theorem generalized_eq (data : List Record)
    (h : ∀ r ∈ data, protoCounty r = false) :
    generalizedJhudataV2 data =
      .ok (passOf data ++ (objKeys (newKeys [] data)).filterMap (alookup (statesOf data))) := by
  rw [generalizedJhudataV2, generalizePass_clean data h]
  show Except.ok (passOf data ++
      (objKeys ((statesOf data).map Prod.fst)).filterMap (alookup (statesOf data))) = _
  rw [statesOf_keys]

/-! ### Lemmas about the input mutation performed by the pass -/

theorem mem_countyKeysList (rs : List Record) (K : String) :
    K ∈ countyKeysList rs ↔ ∃ r ∈ rs, r.county.isSome ∧ provKey r.province = K := by
  simp only [countyKeysList, List.mem_map, List.mem_filter]
  constructor
  · rintro ⟨r, ⟨hr, hc⟩, hk⟩
    exact ⟨r, hr, hc, hk⟩
  · rintro ⟨r, hr, hc, hk⟩
    exact ⟨r, ⟨hr, hc⟩, hk⟩

theorem countyContribs_eq_nil (rs : List Record) (K : String)
    (h : K ∉ countyKeysList rs) : countyContribs rs K = [] := by
  rw [countyContribs, List.filter_eq_nil_iff]
  intro r hr
  intro hcontra
  rcases Bool.and_eq_true_iff.mp hcontra with ⟨hc, hk⟩
  exact h ((mem_countyKeysList rs K).mpr ⟨r, hr, hc, beq_iff_eq.mp hk⟩)

theorem takeWhile_eq_self_of_forall {α : Type} (p : α → Bool) (l : List α)
    (h : ∀ x ∈ l, p x = true) : l.takeWhile p = l := by
  induction l with
  | nil => rfl
  | cons a t ih =>
    rw [List.takeWhile_cons, h a (List.mem_cons_self _ _)]
    simp [ih (fun x hx => h x (List.mem_cons_of_mem _ hx))]

theorem mutGo_eq_self (data : List Record) (h : (countyKeysList data).Nodup)
    (hp : ∀ r ∈ data, protoCounty r = false) :
    ∀ seen, mutGo seen data = data := by
  induction data with
  | nil => intro seen; rfl
  | cons r rs ih =>
    intro seen
    have hptail : ∀ x ∈ rs, protoCounty x = false :=
      fun x hx => hp x (List.mem_cons_of_mem _ hx)
    cases hc : r.county.isSome
    case false =>
      have hkeys : countyKeysList (r :: rs) = countyKeysList rs := by
        simp [countyKeysList, List.filter_cons, hc]
      rw [hkeys] at h
      rw [mutGo, if_neg (by simp [hc])]
      rw [ih h hptail seen]
    case true =>
      have hkeys : countyKeysList (r :: rs) =
          provKey r.province :: countyKeysList rs := by
        simp [countyKeysList, List.filter_cons, hc]
      rw [hkeys] at h
      have hnotin : provKey r.province ∉ countyKeysList rs :=
        (List.nodup_cons.mp h).1
      have htail : (countyKeysList rs).Nodup := (List.nodup_cons.mp h).2
      have hcont : objectPrototypeKeys.contains (provKey r.province) = false := by
        have := hp r (List.mem_cons_self _ _)
        rw [protoCounty, hc] at this
        simpa using this
      have htw : rs.takeWhile (fun x => !protoCounty x) = rs :=
        takeWhile_eq_self_of_forall _ _ (fun x hx => by simp [hptail x hx])
      have hnm : provKey r.province ∉ objectPrototypeKeys := by
        simpa using hcont
      have hmc : mutContribs rs (provKey r.province) = [] := by
        rw [mutContribs, htw, countyContribs_eq_nil rs _ hnotin]
        rfl
      rw [mutGo, if_pos hc]
      by_cases hseen : provKey r.province ∈ seen
      · rw [if_pos hseen, ih htail hptail seen]
      · rw [if_neg hseen, if_neg (by simp [hnm]), hmc, ih htail hptail]
        rfl

theorem generalizeMutated_eq_self (data : List Record)
    (h : (countyKeysList data).Nodup)
    (hp : ∀ r ∈ data, protoCounty r = false) : generalizeMutated data = data :=
  mutGo_eq_self data h hp []

/-- Turn a `filterMap` whose function is everywhere `some` into a `map`. -/
theorem filterMap_eq_map_of_forall_some {α β : Type} (ks : List α)
    (f : α → Option β) (g : α → β) (h : ∀ K ∈ ks, f K = some (g K)) :
    ks.filterMap f = ks.map g := by
  induction ks with
  | nil => rfl
  | cons k t ih =>
    rw [List.filterMap_cons, h k (List.mem_cons_self _ _), List.map_cons,
      ih (fun x hx => h x (List.mem_cons_of_mem _ hx))]

/-! ### Helper lemmas for the extraction and filtering claims -/

theorem strOrNull_str (s : String) :
    strOrNull (.str s) = if s = "" then none else some s := rfl

theorem jsOrNull_some (s : String) :
    jsOrNull (some s) = if s = "" then none else some s := rfl

theorem jsOrNull_some_injective (a b : String)
    (h : jsOrNull (some a) = jsOrNull (some b)) : a = b := by
  rw [jsOrNull_some, jsOrNull_some] at h
  by_cases ha : a = "" <;> by_cases hb : b = "" <;>
    simp [ha, hb] at h <;> simp [ha, hb, h]

theorem idx_of_lt (loc : List String) (i : Nat) (h : i < loc.length) :
    idx loc i = .str (loc.getD i "") := by
  rw [idx, List.getD_eq_getElem?_getD]
  cases h2 : loc.get? i with
  | some s =>
    rw [← List.get?_eq_getElem?, h2]
    rfl
  | none =>
    rw [List.get?_eq_none] at h2
    omega

theorem idx_of_ge (loc : List String) (i : Nat) (h : loc.length ≤ i) :
    idx loc i = .undefined := by
  rw [idx, List.get?_eq_none.mpr h]

theorem find?_eq_head_filter {α : Type} (p : α → Bool) (l : List α) :
    l.find? p = (l.filter p).head? := by
  induction l with
  | nil => rfl
  | cons a t ih =>
    cases hp : p a
    · rw [List.find?_cons_of_neg _ (by simp [hp]), List.filter_cons_of_neg (by simp [hp])]
      exact ih
    · rw [List.find?_cons_of_pos _ hp, List.filter_cons_of_pos hp]
      rfl

theorem filterMap_map_proj {α β γ : Type} (ks : List α) (f : α → Option β)
    (proj : β → γ) (p : α → γ)
    (h : ∀ K ∈ ks, ∃ e, f K = some e ∧ proj e = p K) :
    (ks.filterMap f).map proj = ks.map p := by
  induction ks with
  | nil => rfl
  | cons k t ih =>
    obtain ⟨e, he, hpe⟩ := h k (List.mem_cons_self _ _)
    rw [List.filterMap_cons, he, List.map_cons, List.map_cons, hpe,
      ih (fun x hx => h x (List.mem_cons_of_mem _ hx))]

theorem filter_key_of_nodup (sts : List (String × Record))
    (hnd : (sts.map Prod.fst).Nodup) (K : String) :
    sts.filter (fun kv => kv.1 == K) =
      match alookup sts K with
      | some e => [(K, e)]
      | none => [] := by
  induction sts with
  | nil => rfl
  | cons hd t ih =>
    obtain ⟨k, v⟩ := hd
    rw [List.map_cons, List.nodup_cons] at hnd
    by_cases hk : k = K
    · subst hk
      rw [List.filter_cons_of_pos (by simp), alookup]
      rw [if_pos rfl]
      have ht : t.filter (fun kv => kv.1 == k) = [] := by
        rw [List.filter_eq_nil_iff]
        intro kv hkv hcontra
        exact hnd.1 (List.mem_map.mpr ⟨kv, hkv, (beq_iff_eq.mp hcontra)⟩)
      rw [ht]
    · rw [List.filter_cons_of_neg (by simp [hk]), alookup, if_neg hk]
      exact ih hnd.2

theorem countyContribs_eq_countyRecordsFor (data : List Record) (P : String)
    (h : ∀ r ∈ data, r.county.isSome → r.province.isSome) :
    countyContribs data P = countyRecordsFor data (some P) := by
  rw [countyContribs, countyRecordsFor]
  apply List.filter_congr
  intro r hr
  cases hc : r.county.isSome
  · simp
  · cases hp : r.province with
    | none =>
      have := h r hr hc
      rw [hp] at this
      exact absurd this (by simp)
    | some s =>
      simp only [hc, Bool.true_and]
      rfl

/-! ## The claims -/

/-- Claim C5: if the fetch collaborator fails during ingest (or any step of
the fallible date/fetch/parse prefix fails), `jhudataV2` performs no cache
write, the value under the snapshot key (indeed the whole cache) is
unchanged, and the call returns normally — the embedding is a total
function whose write list is empty on the error path. -/
theorem jhudataV2_failure_no_write (e : String)
    (parseCSV : String → List (List String)) (stringify : List Record → String)
    (jhuV2Key : String) :
    jhudataV2 (.error e) parseCSV stringify jhuV2Key = [] ∧
    ∀ cache : String → Option String,
      applyWrites cache (jhudataV2 (.error e) parseCSV stringify jhuV2Key) = cache :=
  ⟨rfl, fun _ => rfl⟩

/-- Claim C10: calling `getCountyJhuDataV2` with the empty string behaves
exactly like calling it with `null`: the truthiness test `county ?` sends
both to the branch returning every record with a non-null county. -/
theorem getCounty_empty_string_eq_null (data : List Record) :
    getCountyJhuDataV2 data (some "") = getCountyJhuDataV2 data none ∧
    getCountyJhuDataV2 data none = data.filter (fun loc => loc.county.isSome) := by
  constructor
  · simp [getCountyJhuDataV2]
  · rfl

/-- Claim C4 counterexample: on a row with fewer than 10 fields the missing
`country` position yields `undefined`, not `null` — `loc[3]` on a short
array is `undefined` and no `|| null` is applied to it. -/
theorem extractData_missing_country_not_null :
    ([] : List String).length < 10 ∧
    (extractData ([] : List String)).country ≠ JSVal.null :=
  ⟨by decide, by decide⟩

/-- Claim C4 as amended: a row with fewer than 10 fields still produces a
`Record` (the extractor is total, it never raises); each missing position
yields `null` for `province` and `county` (their `|| null` turns the
`undefined` into `null`), the `undefined` value for `country`, `updatedAt`,
`latitude` and `longitude`, and the `NaN` sentinel for `confirmed`,
`deaths` and `recovered`. -/
theorem extractData_short_row (loc : List String) :
    (loc.length ≤ 1 → (extractData loc).county = none) ∧
    (loc.length ≤ 2 → (extractData loc).province = none) ∧
    (loc.length ≤ 3 → (extractData loc).country = .undefined) ∧
    (loc.length ≤ 4 → (extractData loc).updatedAt = .undefined) ∧
    (loc.length ≤ 5 → (extractData loc).coordinates.latitude = .undefined) ∧
    (loc.length ≤ 6 → (extractData loc).coordinates.longitude = .undefined) ∧
    (loc.length ≤ 7 → (extractData loc).stats.confirmed = .nan) ∧
    (loc.length ≤ 8 → (extractData loc).stats.deaths = .nan) ∧
    (loc.length ≤ 9 → (extractData loc).stats.recovered = .nan) := by
  refine ⟨fun h => ?_, fun h => ?_, fun h => ?_, fun h => ?_, fun h => ?_,
    fun h => ?_, fun h => ?_, fun h => ?_, fun h => ?_⟩
  · show strOrNull (idx loc 1) = none
    rw [idx_of_ge _ _ (by omega)]
    rfl
  · show strOrNull (idx loc 2) = none
    rw [idx_of_ge _ _ (by omega)]
    rfl
  · show idx loc 3 = .undefined
    exact idx_of_ge _ _ (by omega)
  · show idx loc 4 = .undefined
    exact idx_of_ge _ _ (by omega)
  · show idx loc 5 = .undefined
    exact idx_of_ge _ _ (by omega)
  · show idx loc 6 = .undefined
    exact idx_of_ge _ _ (by omega)
  · show parseIntJS (idx loc 7) = .nan
    rw [idx_of_ge _ _ (by omega)]
    decide
  · show parseIntJS (idx loc 8) = .nan
    rw [idx_of_ge _ _ (by omega)]
    decide
  · show parseIntJS (idx loc 9) = .nan
    rw [idx_of_ge _ _ (by omega)]
    decide

/-- Witness for `extractData_short_row` at the empty row. -/
theorem extractData_short_row_witness :
    (extractData ([] : List String)).county = none ∧
    (extractData ([] : List String)).province = none ∧
    (extractData ([] : List String)).country = .undefined ∧
    (extractData ([] : List String)).updatedAt = .undefined ∧
    (extractData ([] : List String)).coordinates.latitude = .undefined ∧
    (extractData ([] : List String)).coordinates.longitude = .undefined ∧
    (extractData ([] : List String)).stats.confirmed = .nan ∧
    (extractData ([] : List String)).stats.deaths = .nan ∧
    (extractData ([] : List String)).stats.recovered = .nan := by
  have h := extractData_short_row []
  exact ⟨h.1 (by decide), h.2.1 (by decide), h.2.2.1 (by decide),
    h.2.2.2.1 (by decide), h.2.2.2.2.1 (by decide), h.2.2.2.2.2.1 (by decide),
    h.2.2.2.2.2.2.1 (by decide), h.2.2.2.2.2.2.2.1 (by decide),
    h.2.2.2.2.2.2.2.2 (by decide)⟩

/-- Claim C7: positional mapping of `extractData` on rows with at least 10
fields — field 3 to `country`, field 2 to `province` with the empty string
mapped to `null`, field 1 to `county` likewise, field 4 to `updatedAt`,
fields 7/8/9 through `parseInt` to the stats (non-numeric text gives the
`NaN` sentinel, as the added concrete conjunct shows), fields 5/6 unparsed
to the coordinates; the spec's concrete test row yields the spec's concrete
record. -/
theorem extractData_positional (loc : List String) (h : 10 ≤ loc.length) :
    (extractData loc).country = .str (loc.getD 3 "") ∧
    (extractData loc).province =
      (if loc.getD 2 "" = "" then none else some (loc.getD 2 "")) ∧
    (extractData loc).county =
      (if loc.getD 1 "" = "" then none else some (loc.getD 1 "")) ∧
    (extractData loc).updatedAt = .str (loc.getD 4 "") ∧
    (extractData loc).stats.confirmed = parseIntJS (.str (loc.getD 7 "")) ∧
    (extractData loc).stats.deaths = parseIntJS (.str (loc.getD 8 "")) ∧
    (extractData loc).stats.recovered = parseIntJS (.str (loc.getD 9 "")) ∧
    (extractData loc).coordinates.latitude = .str (loc.getD 5 "") ∧
    (extractData loc).coordinates.longitude = .str (loc.getD 6 "") ∧
    extractData rowSpec =
      mkRec "CountryY" (some "ProvinceX") none (.num 10) (.num 2) (.num 1) ∧
    (extractData (rowSpec.set 7 "abc")).stats.confirmed = .nan := by
  refine ⟨?_, ?_, ?_, ?_, ?_, ?_, ?_, ?_, ?_, by decide, by decide⟩
  · show idx loc 3 = _
    rw [idx_of_lt _ _ (by omega)]
  · show strOrNull (idx loc 2) = _
    rw [idx_of_lt _ _ (by omega), strOrNull_str]
  · show strOrNull (idx loc 1) = _
    rw [idx_of_lt _ _ (by omega), strOrNull_str]
  · show idx loc 4 = _
    rw [idx_of_lt _ _ (by omega)]
  · show parseIntJS (idx loc 7) = _
    rw [idx_of_lt _ _ (by omega)]
  · show parseIntJS (idx loc 8) = _
    rw [idx_of_lt _ _ (by omega)]
  · show parseIntJS (idx loc 9) = _
    rw [idx_of_lt _ _ (by omega)]
  · show idx loc 5 = _
    rw [idx_of_lt _ _ (by omega)]
  · show idx loc 6 = _
    rw [idx_of_lt _ _ (by omega)]

/-- Witness for `extractData_positional` at the spec's test row. -/
theorem extractData_positional_witness :
    10 ≤ rowSpec.length ∧
    extractData rowSpec =
      mkRec "CountryY" (some "ProvinceX") none (.num 10) (.num 2) (.num 1) :=
  ⟨by decide, (extractData_positional rowSpec (by decide)).2.2.2.2.2.2.2.2.2.1⟩

/-- Claim C2 counterexample: `getCountyJhuDataV2` lowercases only the
record's county, never the argument, so the record with county `"Orange"`
is not returned for the argument `"Orange"` (same casing, which the claim's
case-insensitive equality would accept); and the empty-string argument is
falsy, so it returns every county record instead of the records whose
county equals the empty string. -/
theorem getCounty_arg_not_lowercased :
    getCountyJhuDataV2 [recOrange] (some "Orange") = [] ∧
    recOrange.county = some "Orange" ∧
    getCountyJhuDataV2 [recOrange, recA] (some "") = [recOrange, recA] ∧
    recA.county = some "a" :=
  ⟨by decide, by decide, by decide, by decide⟩

/-- Claim C2 as amended: for every non-null, non-empty string argument `c`,
`getCountyJhuDataV2` returns exactly the records whose `county` is non-null
and whose lowercased county equals `c` as given — case-insensitive in the
record's casing only; an argument that is not already lowercase is not
normalized (and the empty-string argument instead selects the all-counties
branch, see `getCounty_empty_string_eq_null`). -/
theorem getCounty_filter_characterization (data : List Record) (c : String)
    (h : c ≠ "") :
    getCountyJhuDataV2 data (some c) =
      data.filter (fun loc => loc.county.isSome && (loc.county.map jsToLower == some c)) ∧
    ∀ r, r ∈ getCountyJhuDataV2 data (some c) ↔
      r ∈ data ∧ ∃ s, r.county = some s ∧ jsToLower s = c := by
  have h1 : getCountyJhuDataV2 data (some c) =
      data.filter (fun loc => loc.county.isSome && (loc.county.map jsToLower == some c)) := by
    show (if c = "" then _ else _) = _
    rw [if_neg h]
  refine ⟨h1, fun r => ?_⟩
  rw [h1, List.mem_filter]
  constructor
  · rintro ⟨hr, hp⟩
    rcases Bool.and_eq_true_iff.mp hp with ⟨hs, hl⟩
    cases hcy : r.county with
    | none =>
      rw [hcy] at hs
      exact absurd hs (by simp)
    | some s =>
      rw [hcy] at hl
      exact ⟨hr, s, rfl, Option.some_inj.mp (beq_iff_eq.mp hl)⟩
  · rintro ⟨hr, s, hcy, hl⟩
    refine ⟨hr, ?_⟩
    rw [hcy]
    simp [hl]

/-- Witness for `getCounty_filter_characterization` with the lowercase
argument `"orange"` matching the uppercase-county record. -/
theorem getCounty_filter_characterization_witness :
    getCountyJhuDataV2 [recOrange] (some "orange") =
      [recOrange].filter
        (fun loc => loc.county.isSome && (loc.county.map jsToLower == some "orange")) ∧
    getCountyJhuDataV2 [recOrange] (some "orange") = [recOrange] :=
  ⟨(getCounty_filter_characterization [recOrange] "orange" (by decide)).1, by decide⟩

/-- Claim C3 counterexample: `defaultData` shares the input record's
`stats` object, so with two county records for province `"P"` the `+=`
statements write the running total into the first input record; the input
collection is modified by the call, and a second call on the (in-place
mutated) collection returns a larger total (5 instead of 3). -/
theorem generalize_mutates_input :
    generalizeMutated dCollShared ≠ dCollShared ∧
    generalizedJhudataV2 (generalizeMutated dCollShared) ≠
      generalizedJhudataV2 dCollShared :=
  ⟨by decide, by decide⟩

/-- Claim C3 as amended: `getCountyJhuDataV2` is a pure filter (the source
performs no write, which the embedding reflects), and `generalizedJhudataV2`
leaves the input unmodified — and hence a second call agrees with the
first, for both functions — provided no two county records share a
province key and no county province names an inherited `Object.prototype`
property (on such a record the call instead throws a `TypeError`, leaving
already-performed mutations in place); when a province key repeats, the
accumulator aliasing adds the later stats into the first such input
record, so the input is mutated and a repeated call yields inflated sums
(see `generalize_mutates_input`). -/
theorem generalize_pure_when_keys_distinct (data : List Record)
    (h : (countyKeysList data).Nodup)
    (hp : ∀ r ∈ data, protoCounty r = false) :
    generalizeMutated data = data ∧
    generalizedJhudataV2 (generalizeMutated data) = generalizedJhudataV2 data ∧
    ∀ county, getCountyJhuDataV2 (generalizeMutated data) county =
      getCountyJhuDataV2 data county := by
  have hm := generalizeMutated_eq_self data h hp
  exact ⟨hm, by rw [hm], fun c => by rw [hm]⟩

/-- Witness for `generalize_pure_when_keys_distinct` on a collection whose
two county records have distinct, non-inherited province keys. -/
theorem generalize_pure_when_keys_distinct_witness :
    generalizeMutated dCollOrder = dCollOrder :=
  (generalize_pure_when_keys_distinct dCollOrder (by decide) (by decide)).1

/-- Claim C1 counterexample: a county record with province `null` and one
with the string province `"null"` coerce to the same property key
`"null"` and feed one accumulator, so the output record derived from
county input for the province `"null"` carries the sum 3 while the input
records with province `"null"` sum to 2. -/
theorem generalize_sum_key_collision :
    generalizePass dColl1 = .ok (passOf dColl1, statesOf dColl1) ∧
    sumStat .confirmed (derivedCountyFor dColl1 (some "null")) = .num 3 ∧
    sumStat .confirmed (countyRecordsFor dColl1 (some "null")) = .num 2 ∧
    sumStat .confirmed (derivedCountyFor dColl1 (some "null")) ≠
      sumStat .confirmed (countyRecordsFor dColl1 (some "null")) :=
  ⟨by decide, by decide, by decide, by decide⟩

/-- Claim C1 as amended: provided every county-level record's province is a
string (never `null` — such provinces coerce to the property key `"null"`
and collide with the string `"null"`) and no county province names an
inherited `Object.prototype` property (on which the pass would throw a
`TypeError` before producing any output), the pass completes, and for
every string province `P` and each of the three stats fields, the sum over
the output records derived from county-level input for `P` equals the sum
over the input county records with province `P`. -/
theorem generalize_sum_invariant (data : List Record) (P : String)
    (h : ∀ r ∈ data, r.county.isSome → r.province.isSome)
    (hp : ∀ r ∈ data, protoCounty r = false) (f : StatField) :
    generalizePass data = .ok (passOf data, statesOf data) ∧
    sumStat f (derivedCountyFor data (some P)) =
      sumStat f (countyRecordsFor data (some P)) := by
  refine ⟨generalizePass_clean data hp, ?_⟩
  have hcc : countyContribs data P = countyRecordsFor data (some P) :=
    countyContribs_eq_countyRecordsFor data P h
  cases hl : countyRecordsFor data (some P) with
  | nil =>
    rw [derivedCountyFor, hl]
    rfl
  | cons c cs =>
    have hnd : ((statesOf data).map Prod.fst).Nodup := by
      rw [statesOf_keys]
      exact newKeys_nodup data []
    have hlk : alookup (statesOf data) (provKey (some P)) =
        some { defaultDataOf c with stats := addStatsList c.stats (cs.map (·.stats)) } := by
      rw [statesOf_alookup, aggEntry]
      show combine none (countyContribs data P) = _
      rw [hcc, hl]
      rfl
    rw [derivedCountyFor, hl]
    rw [if_neg (by simp)]
    rw [filter_key_of_nodup _ hnd, hlk]
    show sumStat f [{ defaultDataOf c with
      stats := addStatsList c.stats (cs.map (·.stats)) }] = _
    rw [sumStat_cons, sumStat_cons]
    show statFold (getStat (addStatsList c.stats (cs.map (·.stats))) f) [] = _
    rw [statFold, List.foldl_nil, getStat_addStatsList, List.map_map]
    rfl

/-- Witness for `generalize_sum_invariant` on the three-record `"CA"`
collection, together with the concrete value of both sums. -/
theorem generalize_sum_invariant_witness :
    (sumStat .confirmed (derivedCountyFor dCollCA (some "CA")) =
      sumStat .confirmed (countyRecordsFor dCollCA (some "CA"))) ∧
    sumStat .confirmed (countyRecordsFor dCollCA (some "CA")) = .num 8 :=
  ⟨(generalize_sum_invariant dCollCA "CA" (by decide) (by decide) .confirmed).2,
    by decide⟩

/-- Claim C8 counterexample: the claim quantifies over every
RecordCollection, but on a county record whose province is `"constructor"`
the truthiness test finds the inherited `Object.prototype.constructor`
(truthy) on first encounter, the `+=` branch throws a `TypeError`, and
`generalizedJhudataV2` produces no output at all — in particular no
aggregated record carrying the `NaN` sentinel. -/
theorem generalize_proto_key_throws :
    (∃ r ∈ dCollProto, r.county.isSome ∧ r.province = some "constructor" ∧
      getStat r.stats .confirmed = .nan) ∧
    generalizedJhudataV2 dCollProto = .error "TypeError" :=
  ⟨by decide, by decide⟩

/-- Claim C8 as amended: provided no county-level record's province names
an inherited `Object.prototype` property (so the pass completes instead of
throwing), a `NaN` sentinel in any stats field of a county-level record
for province `P` propagates into the corresponding field of the aggregated
record for `P` in the generalized output (`NaN` plus anything is `NaN`);
it is never replaced by zero or any other number, since the field is
exactly `NaN`. -/
theorem generalize_nan_propagates (data : List Record) (P : Option String)
    (f : StatField)
    (hclean : ∀ r ∈ data, protoCounty r = false)
    (h : ∃ r ∈ data, r.county.isSome ∧ r.province = P ∧ getStat r.stats f = .nan) :
    ∃ e out, alookup (statesOf data) (provKey P) = some e ∧
      generalizedJhudataV2 data = .ok out ∧ e ∈ out ∧
      getStat e.stats f = .nan := by
  obtain ⟨r, hr, hc, hp, hnan⟩ := h
  have hmem : r ∈ countyContribs data (provKey P) := by
    rw [countyContribs, List.mem_filter]
    refine ⟨hr, ?_⟩
    rw [hc, hp]
    simp
  cases hcs : countyContribs data (provKey P) with
  | nil =>
    rw [hcs] at hmem
    exact absurd hmem (List.not_mem_nil r)
  | cons c cs =>
    have hlk : alookup (statesOf data) (provKey P) =
        some { defaultDataOf c with stats := addStatsList c.stats (cs.map (·.stats)) } := by
      rw [statesOf_alookup, aggEntry, hcs]
      rfl
    refine ⟨_,
      passOf data ++ (objKeys (newKeys [] data)).filterMap (alookup (statesOf data)),
      hlk, generalized_eq data hclean, ?_, ?_⟩
    · apply List.mem_append_right
      apply List.mem_filterMap.mpr
      refine ⟨provKey P, ?_, hlk⟩
      rw [mem_objKeys, ← statesOf_keys]
      by_contra hnot
      rw [← alookup_eq_none_iff] at hnot
      rw [hnot] at hlk
      exact Option.noConfusion hlk
    · rw [hcs] at hmem
      show getStat (addStatsList c.stats (cs.map (·.stats))) f = .nan
      rw [getStat_addStatsList, List.map_map]
      rcases List.mem_cons.mp hmem with heq | hmem2
      · rw [heq] at hnan
        rw [hnan]
        exact statFold_nan _
      · exact statFold_of_mem_nan _ _ (List.mem_map.mpr ⟨r, hmem2, hnan⟩)

/-- Witness for `generalize_nan_propagates`: the `"CA"` accumulator of the
collection with one all-`NaN` county record ends with `NaN` confirmed, and
the record is in the returned output. -/
theorem generalize_nan_propagates_witness :
    ∃ e out, alookup (statesOf dCollNaN) "CA" = some e ∧
      generalizedJhudataV2 dCollNaN = .ok out ∧ e ∈ out ∧
      getStat e.stats .confirmed = .nan :=
  generalize_nan_propagates dCollNaN (some "CA") .confirmed (by decide) (by decide)

/-- Claim C9 counterexample: with a county record of province `null`
(country `"XZ"`) followed by a county record of province `""` (country
`"XB"`), the accumulator stored under the key `""` has the normalized
province `null`, yet its non-stats fields come from the `"XB"` record —
not from the first county-level record encountered for province `null`,
which is the `"XZ"` record. -/
theorem generalize_agg_fields_mismatch :
    generalizePass dCollNullEmpty = .ok (passOf dCollNullEmpty, statesOf dCollNullEmpty) ∧
    alookup (statesOf dCollNullEmpty) "" =
      some (mkRec "XB" none (some "b") (.num 2) (.num 0) (.num 0)) ∧
    firstCountyFor dCollNullEmpty none =
      some (mkRec "XZ" none (some "z") (.num 1) (.num 0) (.num 0)) ∧
    (JSVal.str "XB") ≠ (JSVal.str "XZ") :=
  ⟨by decide, by decide, by decide, by decide⟩

/-- Claim C9 as amended: provided every county-level record's province is a
string and no county province names an inherited `Object.prototype`
property (so the pass completes), the aggregated record stored for
province `P` takes its `country`, `county`, `updatedAt` and `coordinates`
from the first county-level record encountered with province `P`, and in
particular its `county` is the non-null county name of that record. -/
theorem generalize_agg_fields_from_first (data : List Record) (P : String)
    (h : ∀ r ∈ data, r.county.isSome → r.province.isSome)
    (hp : ∀ r ∈ data, protoCounty r = false)
    (r : Record) (hr : firstCountyFor data (some P) = some r) :
    generalizePass data = .ok (passOf data, statesOf data) ∧
    ∃ e, alookup (statesOf data) P = some e ∧
      e.country = r.country ∧ e.county = r.county ∧ e.county.isSome ∧
      e.updatedAt = r.updatedAt ∧ e.coordinates = r.coordinates := by
  refine ⟨generalizePass_clean data hp, ?_⟩
  have hhead : (countyRecordsFor data (some P)).head? = some r := by
    rw [countyRecordsFor, ← find?_eq_head_filter]
    exact hr
  cases hl : countyRecordsFor data (some P) with
  | nil =>
    rw [hl] at hhead
    exact Option.noConfusion hhead
  | cons c cs =>
    rw [hl] at hhead
    have hcr : c = r := Option.some_inj.mp hhead
    subst hcr
    have hcc : countyContribs data P = c :: cs := by
      rw [countyContribs_eq_countyRecordsFor data P h, hl]
    have hcmem : c ∈ countyRecordsFor data (some P) := by
      rw [hl]
      exact List.mem_cons_self _ _
    have hcsome : c.county.isSome := by
      rw [countyRecordsFor] at hcmem
      rcases List.mem_filter.mp hcmem with ⟨_, hpred⟩
      exact (Bool.and_eq_true_iff.mp hpred).1
    refine ⟨{ defaultDataOf c with stats := addStatsList c.stats (cs.map (·.stats)) },
      ?_, rfl, rfl, hcsome, rfl, rfl⟩
    rw [statesOf_alookup, aggEntry]
    show combine none (countyContribs data P) = _
    rw [hcc]
    rfl

/-- Witness for `generalize_agg_fields_from_first` at the `"CA"`
collection. -/
theorem generalize_agg_fields_from_first_witness :
    ∃ e, alookup (statesOf dCollCA) "CA" = some e ∧
      e.country = (mkRec "US" (some "CA") (some "a") (.num 3) (.num 1) (.num 0)).country ∧
      e.county = (mkRec "US" (some "CA") (some "a") (.num 3) (.num 1) (.num 0)).county ∧
      e.county.isSome ∧
      e.updatedAt = (mkRec "US" (some "CA") (some "a") (.num 3) (.num 1) (.num 0)).updatedAt ∧
      e.coordinates = (mkRec "US" (some "CA") (some "a") (.num 3) (.num 1) (.num 0)).coordinates :=
  (generalize_agg_fields_from_first dCollCA "CA" (by decide) (by decide) _ (by decide)).2

/-- Claim C6 counterexample: two violations of the claimed output shape.
First, with county records of provinces `null` and `""` the pass stores two
accumulators (keys `"null"` and `""`) whose output records both carry the
normalized province `null` — two distinct output records derived from
county input share the same province, and the two distinct county-bearing
provinces do not get one aggregated record each under their own province.
Second, with county provinces `"b"` then `"5"`, `Object.keys` enumerates
the array-index key `"5"` first, so the aggregated records are not in
first-encountered order. -/
theorem generalize_output_shape_violations :
    (statesOf dCollNullEmpty).map (fun kv => kv.2.province) = [none, none] ∧
    generalizedJhudataV2 dCollNullEmpty =
      .ok [mkRec "XZ" none (some "z") (.num 1) (.num 0) (.num 0),
        mkRec "XB" none (some "b") (.num 2) (.num 0) (.num 0)] ∧
    (mkRec "XZ" none (some "z") (.num 1) (.num 0) (.num 0)).province =
      (mkRec "XB" none (some "b") (.num 2) (.num 0) (.num 0)).province ∧
    mkRec "XZ" none (some "z") (.num 1) (.num 0) (.num 0) ≠
      mkRec "XB" none (some "b") (.num 2) (.num 0) (.num 0) ∧
    generalizedJhudataV2 dCollOrder =
      .ok [mkRec "US" (some "5") (some "y") (.num 2) (.num 0) (.num 0),
        mkRec "US" (some "b") (some "x") (.num 1) (.num 0) (.num 0)] ∧
    (dCollOrder.filter (fun r => r.county.isSome)).map (fun r => r.province) =
      [some "b", some "5"] :=
  ⟨by decide, by decide, by decide, by decide, by decide, by decide⟩

/-- Claim C6 as amended: provided every county-level record's province is a
string (so no province collides with the key of `null`), no such province
is an array-index string (which `Object.keys` would enumerate first), and
no such province names an inherited `Object.prototype` property (on which
the pass would throw a `TypeError`), the call returns: its output is
exactly the non-county records first, in original relative order and
normalized (`passOf`), followed by one aggregated record per distinct
county-bearing province in the order the provinces were first encountered
(`newKeys [] data`, whose membership is exactly the county-bearing
provinces and which has no duplicates); no two aggregated output records
share the same province. -/
theorem generalize_output_shape (data : List Record)
    (h₁ : ∀ r ∈ data, r.county.isSome → r.province.isSome)
    (h₂ : ∀ r ∈ data, r.county.isSome → isArrayIndexStr (provKey r.province) = false)
    (h₃ : ∀ r ∈ data, protoCounty r = false) :
    generalizedJhudataV2 data =
      .ok (passOf data ++ (newKeys [] data).filterMap (aggEntry data)) ∧
    (newKeys [] data).Nodup ∧
    (∀ K, K ∈ newKeys [] data ↔ ∃ r ∈ data, r.county.isSome ∧ r.province = some K) ∧
    ((newKeys [] data).filterMap (aggEntry data)).map (fun r => r.province) =
      (newKeys [] data).map (fun K => jsOrNull (some K)) ∧
    (((newKeys [] data).filterMap (aggEntry data)).map (fun r => r.province)).Nodup := by
  have hmemKeys : ∀ K, K ∈ newKeys [] data ↔
      ∃ r ∈ data, r.county.isSome ∧ provKey r.province = K := by
    intro K
    rw [mem_newKeys]
    simp only [List.not_mem_nil, not_false_iff, true_and]
  have hmemProv : ∀ K, K ∈ newKeys [] data ↔
      ∃ r ∈ data, r.county.isSome ∧ r.province = some K := by
    intro K
    rw [hmemKeys]
    constructor
    · rintro ⟨r, hr, hc, hk⟩
      cases hp : r.province with
      | none =>
        have := h₁ r hr hc
        rw [hp] at this
        exact absurd this (by simp)
      | some s =>
        rw [hp] at hk
        refine ⟨r, hr, hc, ?_⟩
        rw [hp]
        rw [show provKey (some s) = s from rfl] at hk
        rw [hk]
    · rintro ⟨r, hr, hc, hp⟩
      exact ⟨r, hr, hc, by rw [hp]; rfl⟩
  have hentry : ∀ K ∈ newKeys [] data,
      ∃ e, aggEntry data K = some e ∧ e.province = jsOrNull (some K) := by
    intro K hK
    obtain ⟨r, hr, hc, hp⟩ := (hmemProv K).mp hK
    have hmem : r ∈ countyContribs data K := by
      rw [countyContribs, List.mem_filter]
      refine ⟨hr, ?_⟩
      rw [hc, hp]
      simp [provKey]
    cases hcs : countyContribs data K with
    | nil =>
      rw [hcs] at hmem
      exact absurd hmem (List.not_mem_nil r)
    | cons c cs =>
      refine ⟨{ defaultDataOf c with stats := addStatsList c.stats (cs.map (·.stats)) },
        by rw [aggEntry, hcs]; rfl, ?_⟩
      have hcmem : c ∈ countyContribs data K := by
        rw [hcs]
        exact List.mem_cons_self _ _
      rw [countyContribs, List.mem_filter] at hcmem
      obtain ⟨hcd, hpred⟩ := hcmem
      rcases Bool.and_eq_true_iff.mp hpred with ⟨hcsome, hkey⟩
      cases hpc : c.province with
      | none =>
        have := h₁ c hcd hcsome
        rw [hpc] at this
        exact absurd this (by simp)
      | some s =>
        have hsK : s = K := by
          rw [hpc] at hkey
          exact beq_iff_eq.mp hkey
        show (defaultDataOf c).province = jsOrNull (some K)
        rw [defaultDataOf]
        show jsOrNull c.province = jsOrNull (some K)
        rw [hpc, hsK]
  have hnoidx : ∀ k ∈ newKeys [] data, isArrayIndexStr k = false := by
    intro k hk
    obtain ⟨r, hr, hc, hp⟩ := (hmemKeys k).mp hk
    rw [← hp]
    exact h₂ r hr hc
  have hshape : generalizedJhudataV2 data =
      .ok (passOf data ++ (newKeys [] data).filterMap (aggEntry data)) := by
    rw [generalized_eq data h₃, objKeys_of_no_index _ hnoidx]
    have hfn : alookup (statesOf data) = aggEntry data :=
      funext (statesOf_alookup data)
    rw [hfn]
  have hprovs : ((newKeys [] data).filterMap (aggEntry data)).map (fun r => r.province) =
      (newKeys [] data).map (fun K => jsOrNull (some K)) :=
    filterMap_map_proj _ _ _ _ hentry
  refine ⟨hshape, newKeys_nodup data [], hmemProv, hprovs, ?_⟩
  rw [hprovs]
  exact List.Nodup.map (fun a b hab => jsOrNull_some_injective a b hab)
    (newKeys_nodup data [])

/-- Witness for `generalize_output_shape` at the `"CA"` collection. -/
theorem generalize_output_shape_witness :
    generalizedJhudataV2 dCollCA =
      .ok (passOf dCollCA ++ (newKeys [] dCollCA).filterMap (aggEntry dCollCA)) :=
  (generalize_output_shape dCollCA (by decide) (by decide) (by decide)).1
